import Mathlib

/-!
Shallow embedding of the Picovoice Eagle demo programs
(`demo/c/eagle_demo_file.c`, `demo/c/eagle_demo_mic.c`) against the engine
interface declared in `include/pv_eagle.h`.

The engine itself (`pv_eagle_*` implementations) is an opaque binary backend
loaded at runtime through `dlopen`/`dlsym`; the demos are the orchestration
layer.  Engine behaviour is therefore a parameter of every run model (oracles
for enroll percentages, process scores, init success), while everything the
demo code itself decides — symbol resolution order, CLI validation, audio
format checks, the profile file container, chunking of WAV audio into frames,
error reporting, export gating — is translated directly from the C source.

Runs are modelled as functions producing an event trace (`Ev`): each event
records an observable action of the demo (a `dlsym` resolution, a call into
the engine, a file write, an `exit`, ...), so that ordering and reachability
properties of the C control flow become statements about trace membership.
-/

namespace EagleDemo

/-- Status codes, `pv_status_t` from `include/picovoice.h` / `pv_eagle.h`. -/
inductive PvStatus where
  | success
  | outOfMemory
  | ioError
  | invalidArgument
  | stopIteration
  | keyError
  | invalidState
  | runtimeError
  | activationError
  | activationLimitReached
  | activationThrottled
  | activationRefused
  deriving DecidableEq, Repr

/-- Feedback codes, `pv_eagle_profiler_enroll_feedback_t` from `include/pv_eagle.h`. -/
inductive Feedback where
  | audioOk
  | audioTooShort
  | unknownSpeaker
  | noVoiceFound
  | qualityIssue
  deriving DecidableEq, Repr

/-- The engine entry points the demos resolve with `load_symbol`. -/
inductive Sym where
  | pv_status_to_string
  | pv_sample_rate
  | pv_eagle_frame_length
  | pv_eagle_version
  | pv_get_error_stack
  | pv_free_error_stack
  | pv_eagle_profiler_init
  | pv_eagle_profiler_delete
  | pv_eagle_profiler_enroll_feedback_to_string
  | pv_eagle_profiler_enroll
  | pv_eagle_profiler_enroll_min_audio_length_samples
  | pv_eagle_profiler_export
  | pv_eagle_profiler_export_size
  | pv_eagle_profiler_reset
  | pv_eagle_init
  | pv_eagle_delete
  | pv_eagle_process
  | pv_eagle_reset
  deriving DecidableEq, Repr

/-- Observable events of a demo run. -/
inductive Ev where
  /-- Resolution of `n` by `load_symbol` succeeded. -/
  | resolved (n : Sym)
  /-- Resolution of `n` returned NULL; `print_dl_error` runs. -/
  | dlFail (n : Sym)
  /-- a call into the backend through the resolved pointer for `n`. -/
  | engineCall (n : Sym)
  /-- one of the three WAV header checks failed (sample rate / bits / channels). -/
  | formatReject
  /-- Call to `pv_eagle_profiler_enroll` with this pcm buffer. -/
  | enrollCall (pcm : List Int)
  /-- Failure status returned by `pv_eagle_profiler_enroll`. -/
  | enrollFail
  /-- Call to `pv_eagle_profiler_export_size` / `pv_eagle_profiler_export`. -/
  | exportCall
  /-- Write (`fwrite`) of the exported profile bytes to `path`. -/
  | fileWrite (path : String) (bytes : List Nat)
  /-- Call to `pv_eagle_init` with `num_speakers` and the profile list. -/
  | eagleInit (numSpeakers : Nat) (profiles : List (List Nat))
  /-- Call to `pv_eagle_process` with this frame. -/
  | processCall (frame : List Int)
  /-- one `score` line printed for the preceding frame. -/
  | scoreOut (score : ℚ)
  /-- Failure status returned by `pv_eagle_process`. -/
  | processFail
  /-- the original failure message for status `s` printed to stderr. -/
  | origFailure (s : PvStatus)
  /-- the "Unable to get Eagle error state" note with the query's own status. -/
  | stackNote (s : PvStatus)
  /-- one diagnostic-stack line `[idx] msg` printed by `print_error_message`. -/
  | printMsg (idx : Nat) (msg : String)
  /-- Call to `pv_get_error_stack`. -/
  | stackQuery
  /-- Call to `pv_free_error_stack`. -/
  | freeStack
  /-- Usage message (`print_usage`) followed by `exit(EXIT_FAILURE)`. -/
  | usageError
  /-- Call to `open_dl(library_path)`. -/
  | openBackend (path : String)
  /-- Process exit with EXIT_FAILURE. -/
  | exitFail
  /-- normal termination (`exit(EXIT_SUCCESS)` or return). -/
  | exitOk
  deriving DecidableEq, Repr

/-! ## ProfileStore: the speaker-profile file container

`speaker_enrollment` saves a profile with a bare `fwrite` of
`profile_size_bytes` raw bytes (no header, no checksum);
`speaker_recognition` loads it with `fseek`/`ftell` to obtain the byte
length and a whole-file `fread`.  The file system is a map from paths to
file contents (`none` = unopenable). -/

abbrev FileSystem := String → Option (List Nat)

/-- Save: `fopen(path,"wb")` + `fwrite(profile, size, 1)` + `fclose`;
the file at `path` now holds exactly the profile bytes. -/
def saveProfile (fs : FileSystem) (p : List Nat) (path : String) : FileSystem :=
  fun q => if q = path then some p else fs q

/-- Load: `fopen(path,"rb")`, `fseek`/`ftell` size query, whole-file `fread`;
returns the content together with the recorded size (`ftell` result).
`none` when `fopen` fails. -/
def loadProfile (fs : FileSystem) (path : String) : Option (List Nat × Nat) :=
  match fs path with
  | none => none
  | some bs => some (bs, bs.length)

/-! ## Symbol resolution (`eagle_demo_file.c`)

`picovoice_main` resolves five symbols right after `open_dl` and then calls
`pv_eagle_version_func()`; `speaker_enrollment` / `speaker_recognition` each
resolve their own batch at function entry, exiting on the first missing one
before any engine call through that batch. -/

/-- Resolution order in `picovoice_main` (eagle_demo_file.c:686-714). -/
def fileMainSymbols : List Sym :=
  [.pv_sample_rate, .pv_eagle_frame_length, .pv_eagle_version,
   .pv_get_error_stack, .pv_free_error_stack]

/-- Resolution order in `speaker_enrollment` (eagle_demo_file.c:119-193). -/
def fileEnrollSymbols : List Sym :=
  [.pv_status_to_string, .pv_eagle_profiler_init, .pv_eagle_profiler_delete,
   .pv_eagle_profiler_enroll_feedback_to_string, .pv_eagle_profiler_enroll,
   .pv_eagle_profiler_enroll_min_audio_length_samples,
   .pv_eagle_profiler_export, .pv_eagle_profiler_export_size,
   .pv_eagle_profiler_reset, .pv_sample_rate]

/-- Resolution order in `speaker_recognition` (eagle_demo_file.c:416-465). -/
def fileTestSymbols : List Sym :=
  [.pv_status_to_string, .pv_eagle_init, .pv_eagle_delete, .pv_eagle_process,
   .pv_eagle_reset, .pv_sample_rate, .pv_eagle_frame_length]

/-- Sequential `load_symbol` calls over one batch: each hit emits `resolved`,
the first miss emits `dlFail` + `exitFail` and stops (the C code calls
`print_dl_error` then `exit(EXIT_FAILURE)`).  The flag is `true` iff the
whole batch resolved. -/
def resolvePhase (avail : List Sym) : List Sym → List Ev × Bool
  | [] => ([], true)
  | n :: rest =>
    if n ∈ avail then
      let r := resolvePhase avail rest
      (Ev.resolved n :: r.1, r.2)
    else ([Ev.dlFail n, Ev.exitFail], false)

/-! ## Enrollment (`speaker_enrollment`, eagle_demo_file.c:111-406)

Engine behaviour per audio file is an oracle `EnrollOutcome`: the status,
feedback and cumulative percentage the backend reports for that file's
audio. -/

/-- Header data of one WAV input plus its decoded samples. -/
structure WavInfo where
  sampleRate : Nat
  bitsPerSample : Nat
  channels : Nat
  samples : List Int
  deriving DecidableEq, Repr

/-- Engine-reported outcome of one `pv_eagle_profiler_enroll` call. -/
inductive EnrollOutcome where
  | ok (feedback : Feedback) (percentage : ℚ)
  | fail
  deriving DecidableEq, Repr

/-- Body of the per-file loop (eagle_demo_file.c:227-318): the three WAV
format checks, then the enroll call.  Returns the events and the updated
`enroll_percentage` (`none` when the iteration exited the process). -/
def enrollOneFile (rate : Nat) (wr : WavInfo × EnrollOutcome) : List Ev × Option ℚ :=
  if wr.1.sampleRate ≠ rate ∨ wr.1.bitsPerSample ≠ 16 ∨ wr.1.channels ≠ 1 then
    ([Ev.formatReject, Ev.exitFail], none)
  else
    match wr.2 with
    | .fail => ([Ev.enrollCall wr.1.samples, Ev.enrollFail, Ev.exitFail], none)
    | .ok _ p => ([Ev.enrollCall wr.1.samples], some p)

/-- The `for` loop over audio files, threading `enroll_percentage`
(initially `0.0f`, overwritten by each enroll call's out-parameter). -/
def enrollFiles (rate : Nat) : List (WavInfo × EnrollOutcome) → ℚ → List Ev × Option ℚ
  | [], pct => ([], some pct)
  | wr :: rest, _pct =>
    let r := enrollOneFile rate wr
    match r.2 with
    | none => (r.1, none)
    | some p =>
      let r2 := enrollFiles rate rest p
      (r.1 ++ r2.1, r2.2)

/-- Export epilogue (eagle_demo_file.c:329-405): `export_size` + `export`
(both engine calls, jointly abstracted by the `exportOk` oracle), then
`fopen(output,"wb")` (`openOk`) and the `fwrite` of the profile bytes. -/
def exportPhase (profileBytes : List Nat) (outPath : String)
    (exportOk openOk : Bool) : List Ev :=
  if exportOk = false then [Ev.exportCall, Ev.exitFail]
  else if openOk = false then [Ev.exportCall, Ev.exitFail]
  else [Ev.exportCall, Ev.fileWrite outPath profileBytes, Ev.exitOk]

/-- Body of `speaker_enrollment` after its symbols resolved: `pv_eagle_profiler_init`
(success per the `profilerInitOk` oracle), the per-file loop, then the
`enroll_percentage < 100.0f` gate (eagle_demo_file.c:320-323) guarding the
export epilogue. -/
def profilerBody (rate : Nat) (profilerInitOk : Bool)
    (files : List (WavInfo × EnrollOutcome)) (profileBytes : List Nat)
    (exportOk openOk : Bool) (outPath : String) : List Ev :=
  if profilerInitOk = false then [Ev.engineCall .pv_eagle_profiler_init, Ev.exitFail]
  else
    let r := enrollFiles rate files 0
    Ev.engineCall .pv_eagle_profiler_init ::
    match r.2 with
    | none => r.1
    | some pct =>
      if pct < 100 then r.1 ++ [Ev.exitFail]
      else r.1 ++ exportPhase profileBytes outPath exportOk openOk

/-- Full enrollment-mode run of `eagle_demo_file.c` after CLI validation and
`open_dl`: the `picovoice_main` symbol batch, the `pv_eagle_version` call
(line 716), then `speaker_enrollment` — its own symbol batch and body. -/
def fileEnrollmentRun (avail : List Sym) (rate : Nat) (profilerInitOk : Bool)
    (files : List (WavInfo × EnrollOutcome)) (profileBytes : List Nat)
    (exportOk openOk : Bool) (outPath : String) : List Ev :=
  let m := resolvePhase avail fileMainSymbols
  if m.2 = true then
    let e := resolvePhase avail fileEnrollSymbols
    if e.2 = true then
      m.1 ++ [Ev.engineCall .pv_eagle_version] ++ e.1 ++
        profilerBody rate profilerInitOk files profileBytes exportOk openOk outPath
    else m.1 ++ [Ev.engineCall .pv_eagle_version] ++ e.1
  else m.1

/-! ## Recognition (`speaker_recognition`, eagle_demo_file.c:408-624) -/

/-- The `while (drwav_read_pcm_frames_s16(...) == frame_length)` read loop
(eagle_demo_file.c:576-577): successive full frames of `fl` samples; a read
returning fewer than `fl` samples ends the loop, its data unused. -/
def chunkFrames (fl : Nat) (s : List Int) : List (List Int) :=
  if _h : 0 < fl ∧ fl ≤ s.length then
    s.take fl :: chunkFrames fl (s.drop fl)
  else []
  termination_by s.length
  decreasing_by
    simp only [List.length_drop]
    omega

/-- Processing of the full frames of one file: each `pv_eagle_process` call
either yields one score line (`proc` oracle returns the score) or fails and
the process exits. -/
def processChunks (proc : List Int → Option ℚ) : List (List Int) → List Ev × Bool
  | [] => ([], true)
  | f :: rest =>
    match proc f with
    | none => ([Ev.processCall f, Ev.processFail, Ev.exitFail], false)
    | some q =>
      let r := processChunks proc rest
      (Ev.processCall f :: Ev.scoreOut q :: r.1, r.2)

/-- One file of the recognition loop (eagle_demo_file.c:537-614): the three
WAV format checks, then frame-by-frame processing. -/
def recogOneFile (rate fl : Nat) (proc : List Int → Option ℚ) (w : WavInfo) :
    List Ev × Bool :=
  if w.sampleRate ≠ rate ∨ w.bitsPerSample ≠ 16 ∨ w.channels ≠ 1 then
    ([Ev.formatReject, Ev.exitFail], false)
  else processChunks proc (chunkFrames fl w.samples)

/-- The `for` loop over recognition audio files. -/
def recogFiles (rate fl : Nat) (proc : List Int → Option ℚ) :
    List WavInfo → List Ev × Bool
  | [] => ([], true)
  | w :: rest =>
    let r := recogOneFile rate fl proc w
    if r.2 = true then
      let r2 := recogFiles rate fl proc rest
      (r.1 ++ r2.1, r2.2)
    else r

/-- Body of `speaker_recognition` after its symbols resolved: profile load
(eagle_demo_file.c:467-497; `none` = `fopen` failed), then `pv_eagle_init`
with `num_speakers = 1` and the single profile read from the file
(lines 503-509), then the per-file loop. -/
def recogBody (rate fl : Nat) (profileFile : Option (List Nat)) (initOk : Bool)
    (proc : List Int → Option ℚ) (files : List WavInfo) : List Ev :=
  match profileFile with
  | none => [Ev.exitFail]
  | some bytes =>
    if initOk = false then [Ev.eagleInit 1 [bytes], Ev.exitFail]
    else
      let r := recogFiles rate fl proc files
      Ev.eagleInit 1 [bytes] :: (r.1 ++ if r.2 = true then [Ev.exitOk] else [])

/-- Full test-mode run of `eagle_demo_file.c` after CLI validation and
`open_dl`: the `picovoice_main` symbol batch, the `pv_eagle_version` call,
then `speaker_recognition` — its own symbol batch and body. -/
def fileRecognitionRun (avail : List Sym) (rate fl : Nat)
    (profileFile : Option (List Nat)) (initOk : Bool)
    (proc : List Int → Option ℚ) (files : List WavInfo) : List Ev :=
  let m := resolvePhase avail fileMainSymbols
  if m.2 = true then
    let t := resolvePhase avail fileTestSymbols
    if t.2 = true then
      m.1 ++ [Ev.engineCall .pv_eagle_version] ++ t.1 ++
        recogBody rate fl profileFile initOk proc files
    else m.1 ++ [Ev.engineCall .pv_eagle_version] ++ t.1
  else m.1

/-! ## Microphone enrollment loop (`eagle_demo_mic.c:290-414`) -/

/-- The `while ((enroll_percentage < 100.0f) && (!is_interrupted))` loop:
`intr i` is the interrupt flag observed at iteration `i`'s condition check,
`res i` the outcome of iteration `i`'s enroll call (`none` = failure status),
`pcm i` the audio recorded in iteration `i`.  Result `none` means the run
ended inside the loop (enroll failure, or fuel exhausted while the loop is
still running — no export can have happened); `some (pct, intr)` carries the
percentage and interrupt flag at loop exit. -/
def micEnrollLoop (intr : Nat → Bool) (res : Nat → Option ℚ)
    (pcm : Nat → List Int) : Nat → Nat → ℚ → List Ev × Option (ℚ × Bool)
  | 0, _, _ => ([], none)
  | fuel + 1, i, pct =>
    if pct < 100 ∧ intr i = false then
      match res i with
      | none => ([Ev.enrollCall (pcm i), Ev.enrollFail, Ev.exitFail], none)
      | some p =>
        let r := micEnrollLoop intr res pcm fuel (i + 1) p
        (Ev.enrollCall (pcm i) :: r.1, r.2)
    else ([], some (pct, intr i))

/-- Body of `speaker_enrollment` in `eagle_demo_mic.c` after profiler init: the
enrollment loop, then `if (is_interrupted) exit(EXIT_SUCCESS)` (lines
343-346) — no export — else the export epilogue (lines 350-413). -/
def micEnrollmentBody (intr : Nat → Bool) (res : Nat → Option ℚ)
    (pcm : Nat → List Int) (fuel : Nat) (profileBytes : List Nat)
    (outPath : String) (exportOk openOk : Bool) : List Ev :=
  let r := micEnrollLoop intr res pcm fuel 0 0
  match r.2 with
  | none => r.1
  | some (_, wasIntr) =>
    if wasIntr = true then r.1 ++ [Ev.exitOk]
    else r.1 ++ exportPhase profileBytes outPath exportOk openOk

/-! ## Error reporting (the repeated handler blocks, e.g.
eagle_demo_file.c:286-303) -/

/-- The error-handling block the demos repeat at a failed engine call at
every failure site except the mic demo's profile-export failure (that site
is `micExportFailSite` below): print the original failure message for
status `s`; call `pv_get_error_stack` (result `q`); if the query itself
fails, print the "Unable to get Eagle error state" note with the query's
own status and exit; if it succeeds and the stack is non-empty, print every
stack entry in order and call `pv_free_error_stack` once; then exit. -/
def handleError (s : PvStatus) (q : Except PvStatus (List String)) : List Ev :=
  Ev.origFailure s :: Ev.stackQuery ::
  match q with
  | .error e => [Ev.stackNote e, Ev.exitFail]
  | .ok msgs =>
    (if msgs.length > 0 then
      (msgs.enum.map fun p => Ev.printMsg p.1 p.2) ++ [Ev.freeStack]
    else []) ++ [Ev.exitFail]

/-- Error handling at the mic demo's profile-export failure
(eagle_demo_mic.c:381-385): the failure message with the status string is
printed and the process exits immediately — `pv_get_error_stack` is never
queried there and nothing is printed from or released to the engine. -/
def micExportFailSite (s : PvStatus) : List Ev :=
  [Ev.origFailure s, Ev.exitFail]

/-! ## CLI validation (`picovoice_main`, eagle_demo_file.c:626-678) -/

/-- The option values after the `getopt_long` loop, plus the number of
positional (audio path) arguments. -/
structure CliArgs where
  accessKey : Option String
  libraryPath : Option String
  modelPath : Option String
  enrollPath : Option String
  testPath : Option String
  numAudioPaths : Nat
  deriving DecidableEq, Repr

/-- Argument validation of `picovoice_main` (eagle_demo_file.c:656-684), in
source order: required options, mode exclusivity (both / neither), at least
one audio path, then `open_dl` and mode dispatch. -/
def cliValidate (a : CliArgs) : List Ev :=
  if a.libraryPath.isNone ∨ a.accessKey.isNone ∨ a.modelPath.isNone then
    [Ev.usageError]
  else if a.testPath.isSome ∧ a.enrollPath.isSome then [Ev.usageError]
  else if a.testPath.isNone ∧ a.enrollPath.isNone then [Ev.usageError]
  else if a.numAudioPaths < 1 then [Ev.usageError]
  else [Ev.openBackend (a.libraryPath.getD "")]

/-! ## RecognitionSession.process (spec model)

The engine's `pv_eagle_process` is shipped as a prebuilt binary library;
only its declaration (`include/pv_eagle.h`) is in the source tree. -/

/-- Modelled from the spec: `RecognitionSession.process` (spec section 4.3 and
the frame-length contract of section 8) for the missing engine
implementation of `pv_eagle_process` — "must be called with exactly
`frameLength()` samples; violates contract otherwise (reject, do not
silently truncate/pad)": a frame whose length differs from `fl` is rejected
with `InvalidArgument` and the backend computation is not invoked (the
returned flag records whether the backend ran). -/
def sessionProcess (fl : Nat) (backend : List Int → ℚ) (frame : List Int) :
    Except PvStatus ℚ × Bool :=
  if frame.length ≠ fl then (Except.error PvStatus.invalidArgument, false)
  else (Except.ok (backend frame), true)

/-! ## Symbol resolution and runs of the mic demo (`eagle_demo_mic.c`)

Both demos share one control-flow skeleton after CLI validation and
`open_dl`: `picovoice_main` resolves its own symbol batch, performs some
engine calls through those pointers, then the session function resolves its
batch before any engine call of its own. -/

/-- Common skeleton of all four demo modes: resolve the `picovoice_main`
batch; on success perform the inter-phase engine calls (`interCalls`, in
order), resolve the session function's batch, and on success run the
session body. -/
def sessionRun (avail : List Sym) (mainSyms sessionSyms interCalls : List Sym)
    (body : List Ev) : List Ev :=
  let m := resolvePhase avail mainSyms
  if m.2 = true then
    let s := resolvePhase avail sessionSyms
    if s.2 = true then
      m.1 ++ interCalls.map Ev.engineCall ++ s.1 ++ body
    else m.1 ++ interCalls.map Ev.engineCall ++ s.1
  else m.1

/-- Resolution order in `picovoice_main` (eagle_demo_mic.c:657-679). -/
def micMainSymbols : List Sym :=
  [.pv_eagle_frame_length, .pv_eagle_version, .pv_get_error_stack,
   .pv_free_error_stack]

/-- Resolution order in `speaker_enrollment` (eagle_demo_mic.c:143-225). -/
def micEnrollSymbols : List Sym :=
  [.pv_status_to_string, .pv_sample_rate, .pv_eagle_profiler_init,
   .pv_eagle_profiler_delete, .pv_eagle_profiler_enroll_feedback_to_string,
   .pv_eagle_profiler_enroll,
   .pv_eagle_profiler_enroll_min_audio_length_samples,
   .pv_eagle_profiler_export, .pv_eagle_profiler_export_size,
   .pv_eagle_profiler_reset, .pv_eagle_frame_length]

/-- Resolution order in `speaker_recognition` (eagle_demo_mic.c:423-472). -/
def micTestSymbols : List Sym :=
  [.pv_status_to_string, .pv_sample_rate, .pv_eagle_init, .pv_eagle_delete,
   .pv_eagle_process, .pv_eagle_reset, .pv_eagle_frame_length]

/-- The `while (!is_interrupted)` recognition loop of `eagle_demo_mic.c`
(lines 552-581): each iteration reads one recorder frame (`pcm i`) and
feeds it to `pv_eagle_process` (`proc` oracle; `none` = failure status).
`fuel` bounds the observed iterations; exhausting it stands for the
interrupt eventually arriving. -/
def micRecogLoop (intr : Nat → Bool) (pcm : Nat → List Int)
    (proc : List Int → Option ℚ) : Nat → Nat → List Ev × Bool
  | 0, _ => ([], true)
  | fuel + 1, i =>
    if intr i = true then ([], true)
    else
      match proc (pcm i) with
      | none => ([Ev.processCall (pcm i), Ev.processFail, Ev.exitFail], false)
      | some q =>
        let r := micRecogLoop intr pcm proc fuel (i + 1)
        (Ev.processCall (pcm i) :: Ev.scoreOut q :: r.1, r.2)

/-- Body of `speaker_recognition` in `eagle_demo_mic.c` after its symbols
resolved (lines 475-593): the profile load and `pv_eagle_init` with
`num_speakers = 1` (line-identical to the file demo), then the
interrupt-driven recorder/process loop. -/
def micRecognitionBody (pf : Option (List Nat)) (initOk : Bool)
    (intr : Nat → Bool) (pcm : Nat → List Int) (proc : List Int → Option ℚ)
    (fuel : Nat) : List Ev :=
  match pf with
  | none => [Ev.exitFail]
  | some bytes =>
    if initOk = false then [Ev.eagleInit 1 [bytes], Ev.exitFail]
    else
      let r := micRecogLoop intr pcm proc fuel 0
      Ev.eagleInit 1 [bytes] :: (r.1 ++ if r.2 = true then [Ev.exitOk] else [])

/-- Full enrollment-mode run of `eagle_demo_mic.c` after CLI validation and
`open_dl`: the `picovoice_main` symbol batch, the `pv_eagle_version` (line
681) and `pv_eagle_frame_length` (line 683) calls, then
`speaker_enrollment` — its own symbol batch, `pv_eagle_profiler_init`
(line 232; `piOk` abstracts its success jointly with the
min-audio-length query at line 256), and the enrollment loop with its
export epilogue (`micEnrollmentBody`). -/
def micEnrollmentRun (avail : List Sym) (piOk : Bool) (intr : Nat → Bool)
    (res : Nat → Option ℚ) (pcm : Nat → List Int) (fuel : Nat)
    (bytes : List Nat) (path : String) (eOk oOk : Bool) : List Ev :=
  sessionRun avail micMainSymbols micEnrollSymbols
    [.pv_eagle_version, .pv_eagle_frame_length]
    (if piOk = true then
      Ev.engineCall .pv_eagle_profiler_init ::
        micEnrollmentBody intr res pcm fuel bytes path eOk oOk
     else [Ev.engineCall .pv_eagle_profiler_init, Ev.exitFail])

/-- Full test-mode run of `eagle_demo_mic.c` after CLI validation and
`open_dl`: the `picovoice_main` symbol batch, the `pv_eagle_version` and
`pv_eagle_frame_length` calls, then `speaker_recognition` — its own symbol
batch and body. -/
def micRecognitionRun (avail : List Sym) (pf : Option (List Nat))
    (initOk : Bool) (intr : Nat → Bool) (pcm : Nat → List Int)
    (proc : List Int → Option ℚ) (fuel : Nat) : List Ev :=
  sessionRun avail micMainSymbols micTestSymbols
    [.pv_eagle_version, .pv_eagle_frame_length]
    (micRecognitionBody pf initOk intr pcm proc fuel)

/-- Failure shape of a run against a backend missing a required symbol: the
process exits with a failure (never normally), every engine call that did
happen is one of the allowed inter-phase calls through a pointer that was
actually resolved, and no enroll, export, profile write, recognizer
construction or frame processing ever happened. -/
abbrev failsCleanly (tr : List Ev) (allowedCalls avail : List Sym) : Prop :=
  Ev.exitFail ∈ tr ∧ Ev.exitOk ∉ tr ∧
  (∀ n, Ev.engineCall n ∈ tr → n ∈ allowedCalls ∧ n ∈ avail) ∧
  (∀ pcm, Ev.enrollCall pcm ∉ tr) ∧ Ev.exportCall ∉ tr ∧
  (∀ p b, Ev.fileWrite p b ∉ tr) ∧ (∀ n ps, Ev.eagleInit n ps ∉ tr) ∧
  (∀ f, Ev.processCall f ∉ tr)

/-! ## CLI of the mic demo (`eagle_demo_mic.c:595-649`)

Unlike the file demo, the mic demo has a `-s` (show audio devices) option
handled inside the `getopt_long` loop itself: it lists the devices and
returns 0 on the spot, before later options are parsed and before any mode
or required-option check runs. -/

/-- One parsed option of the mic demo's `getopt_long` loop, in command-line
order. -/
inductive MicOpt where
  | showDevices
  | accessKey (v : String)
  | libraryPath (v : String)
  | modelPath (v : String)
  | enrollPath (v : String)
  | testPath (v : String)
  | deviceIndex (v : Int)
  deriving DecidableEq, Repr

/-- The option values accumulated by the mic demo's `getopt_long` loop. -/
structure MicArgs where
  accessKey : Option String
  libraryPath : Option String
  modelPath : Option String
  enrollPath : Option String
  testPath : Option String
  deriving DecidableEq, Repr

/-- Effect of one non-`-s` option on the accumulated values
(eagle_demo_mic.c:611-628). -/
def micApplyOpt (a : MicArgs) : MicOpt → MicArgs
  | .showDevices => a
  | .accessKey v => { a with accessKey := some v }
  | .libraryPath v => { a with libraryPath := some v }
  | .modelPath v => { a with modelPath := some v }
  | .enrollPath v => { a with enrollPath := some v }
  | .testPath v => { a with testPath := some v }
  | .deviceIndex _ => a

/-- Option values after the whole loop, starting from all-unset. -/
def micFinalArgs (opts : List MicOpt) : MicArgs :=
  opts.foldl micApplyOpt ⟨none, none, none, none, none⟩

/-- Argument validation after the mic demo's `getopt_long` loop
(eagle_demo_mic.c:634-649), in source order: required options, mode
exclusivity (both / neither), then `open_dl` (line 651). -/
def micValidate (a : MicArgs) : List Ev :=
  if a.libraryPath.isNone ∨ a.accessKey.isNone ∨ a.modelPath.isNone then
    [Ev.usageError]
  else if a.testPath.isSome ∧ a.enrollPath.isSome then [Ev.usageError]
  else if a.testPath.isNone ∧ a.enrollPath.isNone then [Ev.usageError]
  else [Ev.openBackend (a.libraryPath.getD "")]

/-- The mic demo's `getopt_long` loop (eagle_demo_mic.c:606-632) followed
by the validation: options are processed in command-line order, and `-s`
lists the audio devices and returns 0 immediately (line 608-610), before
any later option and before the mode checks. -/
def micCliLoop : List MicOpt → MicArgs → List Ev
  | [], a => micValidate a
  | MicOpt.showDevices :: _, _ => [Ev.exitOk]
  | o :: rest, a => micCliLoop rest (micApplyOpt a o)

/-- The mic demo's CLI processing from an empty option state. -/
def micCliRun (opts : List MicOpt) : List Ev :=
  micCliLoop opts ⟨none, none, none, none, none⟩

/-! ## Helper lemmas: `chunkFrames` -/

theorem chunkFrames_neg {fl : Nat} {s : List Int} (h : ¬(0 < fl ∧ fl ≤ s.length)) :
    chunkFrames fl s = [] := by
  rw [chunkFrames]
  exact dif_neg h

theorem chunkFrames_pos {fl : Nat} {s : List Int} (h1 : 0 < fl) (h2 : fl ≤ s.length) :
    chunkFrames fl s = s.take fl :: chunkFrames fl (s.drop fl) := by
  conv_lhs => rw [chunkFrames]
  exact dif_pos ⟨h1, h2⟩

theorem chunkFrames_mem_length (fl : Nat) (s : List Int) :
    ∀ f ∈ chunkFrames fl s, f.length = fl := by
  by_cases h : 0 < fl ∧ fl ≤ s.length
  · rw [chunkFrames_pos h.1 h.2]
    intro f hf
    rcases List.mem_cons.1 hf with hf1 | hf2
    · subst hf1
      simp only [List.length_take]
      omega
    · exact chunkFrames_mem_length fl (s.drop fl) f hf2
  · rw [chunkFrames_neg h]
    intro f hf
    cases hf
  termination_by s.length
  decreasing_by
    simp only [List.length_drop]
    omega

theorem chunkFrames_length (fl : Nat) (hfl : 0 < fl) (s : List Int) :
    (chunkFrames fl s).length = s.length / fl := by
  by_cases h2 : fl ≤ s.length
  · rw [chunkFrames_pos hfl h2, Nat.div_eq_sub_div hfl h2]
    simp only [List.length_cons, chunkFrames_length fl hfl (s.drop fl), List.length_drop]
  · rw [chunkFrames_neg (by omega), Nat.div_eq_of_lt (by omega)]
    rfl
  termination_by s.length
  decreasing_by
    simp only [List.length_drop]
    omega

theorem chunkFrames_join (fl : Nat) (s : List Int) :
    (chunkFrames fl s).flatten = s.take (fl * (s.length / fl)) := by
  by_cases h : 0 < fl ∧ fl ≤ s.length
  · rw [chunkFrames_pos h.1 h.2]
    rw [List.flatten_cons, chunkFrames_join fl (s.drop fl), List.length_drop]
    have hdiv : s.length / fl = (s.length - fl) / fl + 1 :=
      Nat.div_eq_sub_div h.1 h.2
    have hmul : fl * ((s.length - fl) / fl + 1) = fl + fl * ((s.length - fl) / fl) := by
      ring
    rw [hdiv, hmul, List.take_add]
  · rw [chunkFrames_neg h]
    have hz : fl * (s.length / fl) = 0 := by
      rcases Nat.eq_zero_or_pos fl with h0 | h0
      · simp [h0]
      · have hlt : s.length < fl := by omega
        simp [Nat.div_eq_of_lt hlt]
    rw [hz]
    rfl
  termination_by s.length
  decreasing_by
    simp only [List.length_drop]
    omega

/-! ## Helper lemmas: event classification -/

/-- Events a `resolvePhase` trace may contain. -/
def isSymEv : Ev → Bool
  | .resolved _ => true
  | .dlFail _ => true
  | .exitFail => true
  | _ => false

/-- Events the enrollment audio loops may contain. -/
def isEnrollLoopEv : Ev → Bool
  | .formatReject => true
  | .enrollCall _ => true
  | .enrollFail => true
  | .exitFail => true
  | _ => false

/-- Events the recognition audio loop may contain. -/
def isRecogLoopEv : Ev → Bool
  | .formatReject => true
  | .processCall _ => true
  | .scoreOut _ => true
  | .processFail => true
  | .exitFail => true
  | _ => false

/-- Score-line events. -/
def isScoreEv : Ev → Bool
  | .scoreOut _ => true
  | _ => false

/-- Frame-submission events. -/
def isProcessCallEv : Ev → Bool
  | .processCall _ => true
  | _ => false

theorem resolvePhase_isSymEv (avail : List Sym) (l : List Sym) :
    ∀ e ∈ (resolvePhase avail l).1, isSymEv e = true := by
  induction l with
  | nil =>
    intro e he
    cases he
  | cons n rest ih =>
    intro e he
    by_cases hn : n ∈ avail
    · simp only [resolvePhase, if_pos hn] at he
      rcases List.mem_cons.1 he with h1 | h2
      · subst h1
        rfl
      · exact ih e h2
    · simp only [resolvePhase, if_neg hn] at he
      rcases List.mem_cons.1 he with h1 | h2
      · subst h1
        rfl
      · rcases List.mem_singleton.1 h2 with h3
        subst h3
        rfl

theorem resolvePhase_flag (avail : List Sym) (l : List Sym) :
    (resolvePhase avail l).2 = true ↔ ∀ n ∈ l, n ∈ avail := by
  induction l with
  | nil => simp [resolvePhase]
  | cons n rest ih =>
    by_cases hn : n ∈ avail
    · simp [resolvePhase, hn, ih]
    · simp [resolvePhase, hn]

theorem resolvePhase_fail_exit (avail : List Sym) (l : List Sym)
    (h : (resolvePhase avail l).2 = false) :
    Ev.exitFail ∈ (resolvePhase avail l).1 := by
  induction l with
  | nil => simp [resolvePhase] at h
  | cons n rest ih =>
    by_cases hn : n ∈ avail
    · simp only [resolvePhase, if_pos hn] at h ⊢
      exact List.mem_cons_of_mem _ (ih h)
    · simp [resolvePhase, hn]

/-! ## Helper lemmas: the enrollment file loop -/

theorem enrollOneFile_isEnrollLoopEv (rate : Nat) (wr : WavInfo × EnrollOutcome) :
    ∀ e ∈ (enrollOneFile rate wr).1, isEnrollLoopEv e = true := by
  intro e he
  by_cases hfmt : wr.1.sampleRate ≠ rate ∨ wr.1.bitsPerSample ≠ 16 ∨ wr.1.channels ≠ 1
  · simp only [enrollOneFile, if_pos hfmt] at he
    rcases List.mem_cons.1 he with h1 | h2
    · subst h1; rfl
    · rcases List.mem_singleton.1 h2 with h3
      subst h3; rfl
  · cases hr : wr.2 with
    | fail =>
      simp only [enrollOneFile, if_neg hfmt, hr] at he
      rcases List.mem_cons.1 he with h1 | h2
      · subst h1; rfl
      · rcases List.mem_cons.1 h2 with h3 | h4
        · subst h3; rfl
        · rcases List.mem_singleton.1 h4 with h5
          subst h5; rfl
    | ok fb p =>
      simp only [enrollOneFile, if_neg hfmt, hr] at he
      rcases List.mem_singleton.1 he with h1
      subst h1; rfl

theorem enrollFiles_isEnrollLoopEv (rate : Nat)
    (files : List (WavInfo × EnrollOutcome)) :
    ∀ pct : ℚ, ∀ e ∈ (enrollFiles rate files pct).1, isEnrollLoopEv e = true := by
  induction files with
  | nil =>
    intro pct e he
    cases he
  | cons wr rest ih =>
    intro pct e he
    simp only [enrollFiles] at he
    cases hr : (enrollOneFile rate wr).2 with
    | none =>
      rw [hr] at he
      exact enrollOneFile_isEnrollLoopEv rate wr e he
    | some p =>
      rw [hr] at he
      rcases List.mem_append.1 he with h1 | h2
      · exact enrollOneFile_isEnrollLoopEv rate wr e h1
      · exact ih p e h2

theorem enrollOneFile_enrollCall (rate : Nat) (wr : WavInfo × EnrollOutcome)
    (pcm : List Int) (h : Ev.enrollCall pcm ∈ (enrollOneFile rate wr).1) :
    pcm = wr.1.samples ∧ wr.1.sampleRate = rate ∧ wr.1.bitsPerSample = 16 ∧
      wr.1.channels = 1 := by
  by_cases hfmt : wr.1.sampleRate ≠ rate ∨ wr.1.bitsPerSample ≠ 16 ∨ wr.1.channels ≠ 1
  · simp only [enrollOneFile, if_pos hfmt] at h
    simp at h
  · have h1 : wr.1.sampleRate = rate := by tauto
    have h2 : wr.1.bitsPerSample = 16 := by tauto
    have h3 : wr.1.channels = 1 := by tauto
    cases hr : wr.2 with
    | fail =>
      simp only [enrollOneFile, if_neg hfmt, hr] at h
      simp at h
      exact ⟨h, h1, h2, h3⟩
    | ok fb p =>
      simp only [enrollOneFile, if_neg hfmt, hr] at h
      simp at h
      exact ⟨h, h1, h2, h3⟩

theorem enrollFiles_enrollCall (rate : Nat) (files : List (WavInfo × EnrollOutcome)) :
    ∀ pct : ℚ, ∀ pcm : List Int,
      Ev.enrollCall pcm ∈ (enrollFiles rate files pct).1 →
      ∃ w r, (w, r) ∈ files ∧ pcm = w.samples ∧ w.sampleRate = rate ∧
        w.bitsPerSample = 16 ∧ w.channels = 1 := by
  induction files with
  | nil =>
    intro pct pcm h
    cases h
  | cons wr rest ih =>
    intro pct pcm h
    simp only [enrollFiles] at h
    cases hr : (enrollOneFile rate wr).2 with
    | none =>
      rw [hr] at h
      rcases enrollOneFile_enrollCall rate wr pcm h with ⟨h1, h2, h3, h4⟩
      exact ⟨wr.1, wr.2, List.mem_cons_self _ _, h1, h2, h3, h4⟩
    | some p =>
      rw [hr] at h
      rcases List.mem_append.1 h with h1 | h2
      · rcases enrollOneFile_enrollCall rate wr pcm h1 with ⟨h1, h2, h3, h4⟩
        exact ⟨wr.1, wr.2, List.mem_cons_self _ _, h1, h2, h3, h4⟩
      · rcases ih p pcm h2 with ⟨w, r, hmem, h1, h2, h3, h4⟩
        exact ⟨w, r, List.mem_cons_of_mem _ hmem, h1, h2, h3, h4⟩

/-! ## Helper lemmas: the mic enrollment loop -/

theorem micEnrollLoop_isEnrollLoopEv (intr : Nat → Bool) (res : Nat → Option ℚ)
    (pcm : Nat → List Int) :
    ∀ fuel i : Nat, ∀ pct : ℚ,
      ∀ e ∈ (micEnrollLoop intr res pcm fuel i pct).1, isEnrollLoopEv e = true := by
  intro fuel
  induction fuel with
  | zero =>
    intro i pct e he
    cases he
  | succ n ih =>
    intro i pct e he
    simp only [micEnrollLoop] at he
    by_cases hc : pct < 100 ∧ intr i = false
    · rw [if_pos hc] at he
      cases hr : res i with
      | none =>
        rw [hr] at he
        rcases List.mem_cons.1 he with h1 | h2
        · subst h1; rfl
        · rcases List.mem_cons.1 h2 with h3 | h4
          · subst h3; rfl
          · rcases List.mem_singleton.1 h4 with h5
            subst h5; rfl
      | some p =>
        rw [hr] at he
        rcases List.mem_cons.1 he with h1 | h2
        · subst h1; rfl
        · exact ih (i + 1) p e h2
    · rw [if_neg hc] at he
      cases he

theorem micEnrollLoop_complete (intr : Nat → Bool) (res : Nat → Option ℚ)
    (pcm : Nat → List Int) :
    ∀ fuel i : Nat, ∀ pct pfin : ℚ,
      (micEnrollLoop intr res pcm fuel i pct).2 = some (pfin, false) →
      100 ≤ pfin := by
  intro fuel
  induction fuel with
  | zero =>
    intro i pct pfin h
    simp [micEnrollLoop] at h
  | succ n ih =>
    intro i pct pfin h
    simp only [micEnrollLoop] at h
    by_cases hc : pct < 100 ∧ intr i = false
    · rw [if_pos hc] at h
      cases hr : res i with
      | none =>
        rw [hr] at h
        simp at h
      | some p =>
        rw [hr] at h
        exact ih (i + 1) p pfin h
    · rw [if_neg hc] at h
      simp only [Option.some.injEq, Prod.mk.injEq] at h
      rcases h with ⟨h1, h2⟩
      subst h1
      rcases not_and_or.1 hc with h3 | h3
      · exact le_of_not_lt h3
      · exact absurd h2 h3

/-! ## Helper lemmas: the recognition loop -/

theorem processChunks_isRecogLoopEv (proc : List Int → Option ℚ)
    (fs : List (List Int)) :
    ∀ e ∈ (processChunks proc fs).1, isRecogLoopEv e = true := by
  induction fs with
  | nil =>
    intro e he
    cases he
  | cons f rest ih =>
    intro e he
    simp only [processChunks] at he
    cases hp : proc f with
    | none =>
      rw [hp] at he
      rcases List.mem_cons.1 he with h1 | h2
      · subst h1; rfl
      · rcases List.mem_cons.1 h2 with h3 | h4
        · subst h3; rfl
        · rcases List.mem_singleton.1 h4 with h5
          subst h5; rfl
    | some q =>
      rw [hp] at he
      rcases List.mem_cons.1 he with h1 | h2
      · subst h1; rfl
      · rcases List.mem_cons.1 h2 with h3 | h4
        · subst h3; rfl
        · exact ih e h4

theorem processChunks_processCall (proc : List Int → Option ℚ)
    (fs : List (List Int)) :
    ∀ f : List Int, Ev.processCall f ∈ (processChunks proc fs).1 → f ∈ fs := by
  induction fs with
  | nil =>
    intro f h
    cases h
  | cons g rest ih =>
    intro f h
    simp only [processChunks] at h
    cases hp : proc g with
    | none =>
      rw [hp] at h
      simp at h
      exact h ▸ List.mem_cons_self _ _
    | some q =>
      rw [hp] at h
      rcases List.mem_cons.1 h with h1 | h2
      · cases h1
        exact List.mem_cons_self _ _
      · rcases List.mem_cons.1 h2 with h3 | h4
        · cases h3
        · exact List.mem_cons_of_mem _ (ih f h4)

theorem processChunks_counts (proc : List Int → Option ℚ) (fs : List (List Int))
    (h : (processChunks proc fs).2 = true) :
    ((processChunks proc fs).1.countP isScoreEv) =
      ((processChunks proc fs).1.countP isProcessCallEv) := by
  induction fs with
  | nil => rfl
  | cons f rest ih =>
    cases hp : proc f with
    | none =>
      simp only [processChunks, hp] at h
      exact absurd h (by decide)
    | some q =>
      simp only [processChunks, hp] at h ⊢
      simp only [List.countP_cons, isScoreEv, isProcessCallEv]
      rw [ih h]
      simp

theorem processChunks_scores_le (proc : List Int → Option ℚ) (fs : List (List Int)) :
    ((processChunks proc fs).1.countP isScoreEv) ≤
      ((processChunks proc fs).1.countP isProcessCallEv) := by
  induction fs with
  | nil => exact le_refl _
  | cons f rest ih =>
    cases hp : proc f with
    | none =>
      simp only [processChunks, hp]
      simp [List.countP_cons, isScoreEv, isProcessCallEv]
    | some q =>
      simp only [processChunks, hp]
      simp only [List.countP_cons, isScoreEv, isProcessCallEv]
      omega

theorem not_mem_of_classifier {l : List Ev} {p : Ev → Bool}
    (h : ∀ e ∈ l, p e = true) {e : Ev} (he : p e = false) : e ∉ l := by
  intro hmem
  rw [h e hmem] at he
  cases he

theorem recogOneFile_isRecogLoopEv (rate fl : Nat) (proc : List Int → Option ℚ)
    (w : WavInfo) :
    ∀ e ∈ (recogOneFile rate fl proc w).1, isRecogLoopEv e = true := by
  intro e he
  by_cases hfmt : w.sampleRate ≠ rate ∨ w.bitsPerSample ≠ 16 ∨ w.channels ≠ 1
  · simp only [recogOneFile, if_pos hfmt] at he
    rcases List.mem_cons.1 he with h1 | h2
    · subst h1; rfl
    · rcases List.mem_singleton.1 h2 with h3
      subst h3; rfl
  · simp only [recogOneFile, if_neg hfmt] at he
    exact processChunks_isRecogLoopEv proc _ e he

theorem recogOneFile_processCall (rate fl : Nat) (proc : List Int → Option ℚ)
    (w : WavInfo) (f : List Int)
    (h : Ev.processCall f ∈ (recogOneFile rate fl proc w).1) :
    f ∈ chunkFrames fl w.samples ∧ w.sampleRate = rate ∧
      w.bitsPerSample = 16 ∧ w.channels = 1 := by
  by_cases hfmt : w.sampleRate ≠ rate ∨ w.bitsPerSample ≠ 16 ∨ w.channels ≠ 1
  · simp only [recogOneFile, if_pos hfmt] at h
    simp at h
  · have h1 : w.sampleRate = rate := by tauto
    have h2 : w.bitsPerSample = 16 := by tauto
    have h3 : w.channels = 1 := by tauto
    simp only [recogOneFile, if_neg hfmt] at h
    exact ⟨processChunks_processCall proc _ f h, h1, h2, h3⟩

theorem recogFiles_isRecogLoopEv (rate fl : Nat) (proc : List Int → Option ℚ)
    (files : List WavInfo) :
    ∀ e ∈ (recogFiles rate fl proc files).1, isRecogLoopEv e = true := by
  induction files with
  | nil =>
    intro e he
    cases he
  | cons w rest ih =>
    intro e he
    simp only [recogFiles] at he
    by_cases hok : (recogOneFile rate fl proc w).2 = true
    · rw [if_pos hok] at he
      rcases List.mem_append.1 he with h1 | h2
      · exact recogOneFile_isRecogLoopEv rate fl proc w e h1
      · exact ih e h2
    · rw [if_neg hok] at he
      exact recogOneFile_isRecogLoopEv rate fl proc w e he

theorem recogFiles_processCall (rate fl : Nat) (proc : List Int → Option ℚ)
    (files : List WavInfo) (f : List Int)
    (h : Ev.processCall f ∈ (recogFiles rate fl proc files).1) :
    ∃ w, w ∈ files ∧ f ∈ chunkFrames fl w.samples ∧ w.sampleRate = rate ∧
      w.bitsPerSample = 16 ∧ w.channels = 1 := by
  induction files with
  | nil => cases h
  | cons w rest ih =>
    simp only [recogFiles] at h
    by_cases hok : (recogOneFile rate fl proc w).2 = true
    · rw [if_pos hok] at h
      rcases List.mem_append.1 h with h1 | h2
      · rcases recogOneFile_processCall rate fl proc w f h1 with ⟨ha, hb, hc, hd⟩
        exact ⟨w, List.mem_cons_self _ _, ha, hb, hc, hd⟩
      · rcases ih h2 with ⟨w2, hmem, ha, hb, hc, hd⟩
        exact ⟨w2, List.mem_cons_of_mem _ hmem, ha, hb, hc, hd⟩
    · rw [if_neg hok] at h
      rcases recogOneFile_processCall rate fl proc w f h with ⟨ha, hb, hc, hd⟩
      exact ⟨w, List.mem_cons_self _ _, ha, hb, hc, hd⟩

/-! ## Helper lemmas: the export epilogue and `profilerBody` -/

theorem exportPhase_fileWrite (bytes : List Nat) (path : String)
    (eOk oOk : Bool) (p : String) (b : List Nat)
    (h : Ev.fileWrite p b ∈ exportPhase bytes path eOk oOk) :
    p = path ∧ b = bytes ∧ eOk = true ∧ oOk = true := by
  cases eOk with
  | false => simp [exportPhase] at h
  | true =>
    cases oOk with
    | false => simp [exportPhase] at h
    | true =>
      simp [exportPhase] at h
      exact ⟨h.1, h.2, rfl, rfl⟩

theorem profilerBody_exportCall (rate : Nat) (piOk : Bool)
    (files : List (WavInfo × EnrollOutcome)) (bytes : List Nat)
    (eOk oOk : Bool) (path : String)
    (h : Ev.exportCall ∈ profilerBody rate piOk files bytes eOk oOk path) :
    ∃ pct : ℚ, (enrollFiles rate files 0).2 = some pct ∧ 100 ≤ pct := by
  cases piOk with
  | false => simp [profilerBody] at h
  | true =>
    cases hr : (enrollFiles rate files 0).2 with
    | none =>
      simp [profilerBody, hr] at h
      exact absurd h
        (not_mem_of_classifier (enrollFiles_isEnrollLoopEv rate files 0) rfl)
    | some pct =>
      by_cases hlt : pct < 100
      · simp [profilerBody, hr, hlt] at h
        exact absurd h
          (not_mem_of_classifier (enrollFiles_isEnrollLoopEv rate files 0) rfl)
      · exact ⟨pct, rfl, le_of_not_lt hlt⟩

theorem profilerBody_fileWrite (rate : Nat) (piOk : Bool)
    (files : List (WavInfo × EnrollOutcome)) (bytes : List Nat)
    (eOk oOk : Bool) (path : String) (p : String) (b : List Nat)
    (h : Ev.fileWrite p b ∈ profilerBody rate piOk files bytes eOk oOk path) :
    (∃ pct : ℚ, (enrollFiles rate files 0).2 = some pct ∧ 100 ≤ pct) ∧
      p = path ∧ b = bytes := by
  cases piOk with
  | false => simp [profilerBody] at h
  | true =>
    cases hr : (enrollFiles rate files 0).2 with
    | none =>
      simp [profilerBody, hr] at h
      exact absurd h
        (not_mem_of_classifier (enrollFiles_isEnrollLoopEv rate files 0) rfl)
    | some pct =>
      by_cases hlt : pct < 100
      · simp [profilerBody, hr, hlt] at h
        exact absurd h
          (not_mem_of_classifier (enrollFiles_isEnrollLoopEv rate files 0) rfl)
      · simp [profilerBody, hr, hlt] at h
        rcases h with h1 | h2
        · exact absurd h1
            (not_mem_of_classifier (enrollFiles_isEnrollLoopEv rate files 0) rfl)
        · rcases exportPhase_fileWrite bytes path eOk oOk p b h2 with ⟨ha, hb, _, _⟩
          exact ⟨⟨pct, rfl, le_of_not_lt hlt⟩, ha, hb⟩

/-! ## Helper lemmas: the assembled file-demo runs -/

theorem fileEnrollmentRun_split (avail : List Sym) (rate : Nat) (piOk : Bool)
    (files : List (WavInfo × EnrollOutcome)) (bytes : List Nat)
    (eOk oOk : Bool) (path : String) (e : Ev)
    (h : e ∈ fileEnrollmentRun avail rate piOk files bytes eOk oOk path) :
    isSymEv e = true ∨ e = Ev.engineCall .pv_eagle_version ∨
      e ∈ profilerBody rate piOk files bytes eOk oOk path := by
  simp only [fileEnrollmentRun] at h
  by_cases hm : (resolvePhase avail fileMainSymbols).2 = true
  · rw [if_pos hm] at h
    by_cases he2 : (resolvePhase avail fileEnrollSymbols).2 = true
    · rw [if_pos he2] at h
      rcases List.mem_append.1 h with h1 | h2
      · rcases List.mem_append.1 h1 with h3 | h4
        · rcases List.mem_append.1 h3 with h5 | h6
          · exact Or.inl (resolvePhase_isSymEv avail fileMainSymbols e h5)
          · exact Or.inr (Or.inl (List.mem_singleton.1 h6))
        · exact Or.inl (resolvePhase_isSymEv avail fileEnrollSymbols e h4)
      · exact Or.inr (Or.inr h2)
    · rw [if_neg he2] at h
      rcases List.mem_append.1 h with h1 | h2
      · rcases List.mem_append.1 h1 with h3 | h4
        · exact Or.inl (resolvePhase_isSymEv avail fileMainSymbols e h3)
        · exact Or.inr (Or.inl (List.mem_singleton.1 h4))
      · exact Or.inl (resolvePhase_isSymEv avail fileEnrollSymbols e h2)
  · rw [if_neg hm] at h
    exact Or.inl (resolvePhase_isSymEv avail fileMainSymbols e h)

theorem recogBody_eagleInit (rate fl : Nat) (pf : Option (List Nat))
    (initOk : Bool) (proc : List Int → Option ℚ) (files : List WavInfo)
    (n : Nat) (ps : List (List Nat))
    (h : Ev.eagleInit n ps ∈ recogBody rate fl pf initOk proc files) :
    n = 1 ∧ ∃ bytes, pf = some bytes ∧ ps = [bytes] := by
  cases pf with
  | none => simp [recogBody] at h
  | some bytes =>
    cases initOk with
    | false =>
      simp [recogBody] at h
      exact ⟨h.1, bytes, rfl, h.2⟩
    | true =>
      simp only [recogBody] at h
      rcases List.mem_cons.1 h with h1 | h2
      · rcases Ev.eagleInit.injEq .. ▸ h1 with ⟨h4, h5⟩
        exact ⟨h4, bytes, rfl, h5⟩
      · rcases List.mem_append.1 h2 with h3 | h4
        · exact absurd h3
            (not_mem_of_classifier (recogFiles_isRecogLoopEv rate fl proc files) rfl)
        · by_cases hflag : (recogFiles rate fl proc files).2 = true
          · rw [if_pos hflag] at h4
            simp at h4
          · rw [if_neg hflag] at h4
            cases h4

theorem recogBody_processCall (rate fl : Nat) (pf : Option (List Nat))
    (initOk : Bool) (proc : List Int → Option ℚ) (files : List WavInfo)
    (f : List Int)
    (h : Ev.processCall f ∈ recogBody rate fl pf initOk proc files) :
    ∃ w, w ∈ files ∧ f ∈ chunkFrames fl w.samples ∧ w.sampleRate = rate ∧
      w.bitsPerSample = 16 ∧ w.channels = 1 := by
  cases pf with
  | none => simp [recogBody] at h
  | some bytes =>
    cases initOk with
    | false => simp [recogBody] at h
    | true =>
      simp only [recogBody] at h
      rcases List.mem_cons.1 h with h1 | h2
      · cases h1
      · rcases List.mem_append.1 h2 with h3 | h4
        · exact recogFiles_processCall rate fl proc files f h3
        · by_cases hflag : (recogFiles rate fl proc files).2 = true
          · rw [if_pos hflag] at h4
            simp at h4
          · rw [if_neg hflag] at h4
            cases h4

theorem fileRecognitionRun_split (avail : List Sym) (rate fl : Nat)
    (pf : Option (List Nat)) (initOk : Bool) (proc : List Int → Option ℚ)
    (files : List WavInfo) (e : Ev)
    (h : e ∈ fileRecognitionRun avail rate fl pf initOk proc files) :
    isSymEv e = true ∨ e = Ev.engineCall .pv_eagle_version ∨
      e ∈ recogBody rate fl pf initOk proc files := by
  simp only [fileRecognitionRun] at h
  by_cases hm : (resolvePhase avail fileMainSymbols).2 = true
  · rw [if_pos hm] at h
    by_cases ht : (resolvePhase avail fileTestSymbols).2 = true
    · rw [if_pos ht] at h
      rcases List.mem_append.1 h with h1 | h2
      · rcases List.mem_append.1 h1 with h3 | h4
        · rcases List.mem_append.1 h3 with h5 | h6
          · exact Or.inl (resolvePhase_isSymEv avail fileMainSymbols e h5)
          · exact Or.inr (Or.inl (List.mem_singleton.1 h6))
        · exact Or.inl (resolvePhase_isSymEv avail fileTestSymbols e h4)
      · exact Or.inr (Or.inr h2)
    · rw [if_neg ht] at h
      rcases List.mem_append.1 h with h1 | h2
      · rcases List.mem_append.1 h1 with h3 | h4
        · exact Or.inl (resolvePhase_isSymEv avail fileMainSymbols e h3)
        · exact Or.inr (Or.inl (List.mem_singleton.1 h4))
      · exact Or.inl (resolvePhase_isSymEv avail fileTestSymbols e h2)
  · rw [if_neg hm] at h
    exact Or.inl (resolvePhase_isSymEv avail fileMainSymbols e h)

theorem processChunks_flag (proc : List Int → Option ℚ) (fs : List (List Int))
    (h : ∀ f, proc f ≠ none) : (processChunks proc fs).2 = true := by
  induction fs with
  | nil => rfl
  | cons f rest ih =>
    cases hp : proc f with
    | none => exact absurd hp (h f)
    | some q => simp [processChunks, hp, ih]

theorem processChunks_success_events (proc : List Int → Option ℚ)
    (fs : List (List Int)) (h : ∀ f, proc f ≠ none) :
    ∀ e ∈ (processChunks proc fs).1,
      isProcessCallEv e = true ∨ isScoreEv e = true := by
  induction fs with
  | nil =>
    intro e he
    cases he
  | cons f rest ih =>
    intro e he
    cases hp : proc f with
    | none => exact absurd hp (h f)
    | some q =>
      simp only [processChunks, hp] at he
      rcases List.mem_cons.1 he with h1 | h2
      · subst h1
        exact Or.inl rfl
      · rcases List.mem_cons.1 h2 with h3 | h4
        · subst h3
          exact Or.inr rfl
        · exact ih e h4

theorem exportPhase_events (bytes : List Nat) (path : String) (eOk oOk : Bool) :
    ∀ e ∈ exportPhase bytes path eOk oOk,
      e = Ev.exportCall ∨ e = Ev.exitFail ∨ e = Ev.fileWrite path bytes ∨
        e = Ev.exitOk := by
  intro e he
  cases eOk with
  | false =>
    simp [exportPhase] at he
    tauto
  | true =>
    cases oOk with
    | false =>
      simp [exportPhase] at he
      tauto
    | true =>
      simp [exportPhase] at he
      tauto

theorem profilerBody_enrollCall (rate : Nat) (piOk : Bool)
    (files : List (WavInfo × EnrollOutcome)) (bytes : List Nat)
    (eOk oOk : Bool) (path : String) (pcm : List Int)
    (h : Ev.enrollCall pcm ∈ profilerBody rate piOk files bytes eOk oOk path) :
    ∃ w r, (w, r) ∈ files ∧ pcm = w.samples ∧ w.sampleRate = rate ∧
      w.bitsPerSample = 16 ∧ w.channels = 1 := by
  cases piOk with
  | false => simp [profilerBody] at h
  | true =>
    cases hr : (enrollFiles rate files 0).2 with
    | none =>
      simp [profilerBody, hr] at h
      exact enrollFiles_enrollCall rate files 0 pcm h
    | some pct =>
      by_cases hlt : pct < 100
      · simp [profilerBody, hr, hlt] at h
        exact enrollFiles_enrollCall rate files 0 pcm h
      · simp [profilerBody, hr, hlt] at h
        rcases h with h1 | h2
        · exact enrollFiles_enrollCall rate files 0 pcm h1
        · rcases exportPhase_events bytes path eOk oOk _ h2 with h3 | h3 | h3 | h3 <;>
            cases h3

theorem micEnrollmentBody_exportCall (intr : Nat → Bool) (res : Nat → Option ℚ)
    (pcm : Nat → List Int) (fuel : Nat) (bytes : List Nat) (path : String)
    (eOk oOk : Bool)
    (h : Ev.exportCall ∈ micEnrollmentBody intr res pcm fuel bytes path eOk oOk) :
    ∃ pct : ℚ,
      (micEnrollLoop intr res pcm fuel 0 0).2 = some (pct, false) ∧ 100 ≤ pct := by
  simp only [micEnrollmentBody] at h
  cases hr : (micEnrollLoop intr res pcm fuel 0 0).2 with
  | none =>
    rw [hr] at h
    exact absurd h (not_mem_of_classifier
      (micEnrollLoop_isEnrollLoopEv intr res pcm fuel 0 0) rfl)
  | some pw =>
    rw [hr] at h
    rcases pw with ⟨pct, wasIntr⟩
    cases wasIntr with
    | true =>
      simp only at h
      rcases List.mem_append.1 h with h1 | h2
      · exact absurd h1 (not_mem_of_classifier
          (micEnrollLoop_isEnrollLoopEv intr res pcm fuel 0 0) rfl)
      · simp at h2
    | false =>
      exact ⟨pct, rfl, micEnrollLoop_complete intr res pcm fuel 0 0 pct hr⟩

theorem micEnrollmentBody_fileWrite (intr : Nat → Bool) (res : Nat → Option ℚ)
    (pcm : Nat → List Int) (fuel : Nat) (bytes : List Nat) (path : String)
    (eOk oOk : Bool) (p : String) (b : List Nat)
    (h : Ev.fileWrite p b ∈ micEnrollmentBody intr res pcm fuel bytes path eOk oOk) :
    ∃ pct : ℚ,
      (micEnrollLoop intr res pcm fuel 0 0).2 = some (pct, false) ∧ 100 ≤ pct := by
  simp only [micEnrollmentBody] at h
  cases hr : (micEnrollLoop intr res pcm fuel 0 0).2 with
  | none =>
    rw [hr] at h
    exact absurd h (not_mem_of_classifier
      (micEnrollLoop_isEnrollLoopEv intr res pcm fuel 0 0) rfl)
  | some pw =>
    rw [hr] at h
    rcases pw with ⟨pct, wasIntr⟩
    cases wasIntr with
    | true =>
      simp only at h
      rcases List.mem_append.1 h with h1 | h2
      · exact absurd h1 (not_mem_of_classifier
          (micEnrollLoop_isEnrollLoopEv intr res pcm fuel 0 0) rfl)
      · simp at h2
    | false =>
      exact ⟨pct, rfl, micEnrollLoop_complete intr res pcm fuel 0 0 pct hr⟩

/-- Every entry point present: a fully conforming backend. -/
def allSyms : List Sym :=
  [.pv_status_to_string, .pv_sample_rate, .pv_eagle_frame_length,
   .pv_eagle_version, .pv_get_error_stack, .pv_free_error_stack,
   .pv_eagle_profiler_init, .pv_eagle_profiler_delete,
   .pv_eagle_profiler_enroll_feedback_to_string, .pv_eagle_profiler_enroll,
   .pv_eagle_profiler_enroll_min_audio_length_samples,
   .pv_eagle_profiler_export, .pv_eagle_profiler_export_size,
   .pv_eagle_profiler_reset, .pv_eagle_init, .pv_eagle_delete,
   .pv_eagle_process, .pv_eagle_reset]

theorem fileEnrollmentRun_eq (avail : List Sym) (rate : Nat) (piOk : Bool)
    (files : List (WavInfo × EnrollOutcome)) (bytes : List Nat)
    (eOk oOk : Bool) (path : String) :
    fileEnrollmentRun avail rate piOk files bytes eOk oOk path =
      sessionRun avail fileMainSymbols fileEnrollSymbols [.pv_eagle_version]
        (profilerBody rate piOk files bytes eOk oOk path) := rfl

theorem fileRecognitionRun_eq (avail : List Sym) (rate fl : Nat)
    (pf : Option (List Nat)) (initOk : Bool) (proc : List Int → Option ℚ)
    (files : List WavInfo) :
    fileRecognitionRun avail rate fl pf initOk proc files =
      sessionRun avail fileMainSymbols fileTestSymbols [.pv_eagle_version]
        (recogBody rate fl pf initOk proc files) := rfl

theorem sessionRun_missing (avail mainSyms sessionSyms interCalls : List Sym)
    (body : List Ev) (s : Sym) (hreq : s ∈ mainSyms ++ sessionSyms)
    (hmiss : s ∉ avail) (hsub : ∀ n ∈ interCalls, n ∈ mainSyms) :
    failsCleanly (sessionRun avail mainSyms sessionSyms interCalls body)
      interCalls avail := by
  by_cases hm : (resolvePhase avail mainSyms).2 = true
  · by_cases hs : (resolvePhase avail sessionSyms).2 = true
    · exfalso
      rcases List.mem_append.1 hreq with h1 | h1
      · exact hmiss ((resolvePhase_flag avail mainSyms).1 hm s h1)
      · exact hmiss ((resolvePhase_flag avail sessionSyms).1 hs s h1)
    · have hs' : (resolvePhase avail sessionSyms).2 = false := by
        revert hs
        cases (resolvePhase avail sessionSyms).2 <;> simp
      have hrun : sessionRun avail mainSyms sessionSyms interCalls body =
          (resolvePhase avail mainSyms).1 ++ interCalls.map Ev.engineCall ++
            (resolvePhase avail sessionSyms).1 := by
        simp only [sessionRun]
        rw [if_pos hm, if_neg hs]
      have hshape : ∀ e ∈ sessionRun avail mainSyms sessionSyms interCalls body,
          isSymEv e = true ∨ ∃ n, n ∈ interCalls ∧ e = Ev.engineCall n := by
        intro e hmem
        rw [hrun] at hmem
        rcases List.mem_append.1 hmem with h1 | h1
        · rcases List.mem_append.1 h1 with h2 | h2
          · exact Or.inl (resolvePhase_isSymEv avail mainSyms e h2)
          · rcases List.mem_map.1 h2 with ⟨n, hn, he⟩
            exact Or.inr ⟨n, hn, he.symm⟩
        · exact Or.inl (resolvePhase_isSymEv avail sessionSyms e h1)
      refine ⟨?_, ?_, ?_, ?_, ?_, ?_, ?_, ?_⟩
      · rw [hrun]
        exact List.mem_append_right _
          (resolvePhase_fail_exit avail sessionSyms hs')
      · intro hmem
        rcases hshape _ hmem with h1 | ⟨n, _, h1⟩
        · simp [isSymEv] at h1
        · cases h1
      · intro n hmem
        rcases hshape _ hmem with h1 | ⟨n2, hn2, h1⟩
        · simp [isSymEv] at h1
        · injection h1 with hnn
          subst hnn
          exact ⟨hn2, (resolvePhase_flag avail mainSyms).1 hm n (hsub n hn2)⟩
      · intro pcm hmem
        rcases hshape _ hmem with h1 | ⟨n2, _, h1⟩
        · simp [isSymEv] at h1
        · cases h1
      · intro hmem
        rcases hshape _ hmem with h1 | ⟨n2, _, h1⟩
        · simp [isSymEv] at h1
        · cases h1
      · intro p b hmem
        rcases hshape _ hmem with h1 | ⟨n2, _, h1⟩
        · simp [isSymEv] at h1
        · cases h1
      · intro n ps hmem
        rcases hshape _ hmem with h1 | ⟨n2, _, h1⟩
        · simp [isSymEv] at h1
        · cases h1
      · intro f hmem
        rcases hshape _ hmem with h1 | ⟨n2, _, h1⟩
        · simp [isSymEv] at h1
        · cases h1
  · have hm' : (resolvePhase avail mainSyms).2 = false := by
      revert hm
      cases (resolvePhase avail mainSyms).2 <;> simp
    have hrun : sessionRun avail mainSyms sessionSyms interCalls body =
        (resolvePhase avail mainSyms).1 := by
      simp only [sessionRun]
      rw [if_neg hm]
    have hshape : ∀ e ∈ sessionRun avail mainSyms sessionSyms interCalls body,
        isSymEv e = true := by
      intro e hmem
      rw [hrun] at hmem
      exact resolvePhase_isSymEv avail mainSyms e hmem
    refine ⟨?_, ?_, ?_, ?_, ?_, ?_, ?_, ?_⟩
    · rw [hrun]
      exact resolvePhase_fail_exit avail mainSyms hm'
    · intro hmem
      have h1 := hshape _ hmem
      simp [isSymEv] at h1
    · intro n hmem
      have h1 := hshape _ hmem
      simp [isSymEv] at h1
    · intro pcm hmem
      have h1 := hshape _ hmem
      simp [isSymEv] at h1
    · intro hmem
      have h1 := hshape _ hmem
      simp [isSymEv] at h1
    · intro p b hmem
      have h1 := hshape _ hmem
      simp [isSymEv] at h1
    · intro n ps hmem
      have h1 := hshape _ hmem
      simp [isSymEv] at h1
    · intro f hmem
      have h1 := hshape _ hmem
      simp [isSymEv] at h1

/-! ## Claim theorems -/

/-- C1: for every profile byte sequence, saving it to a path
(`speaker_enrollment`'s bare `fwrite` of the raw bytes, no header or
checksum) and loading that path back (`speaker_recognition`'s whole-file
`fread`) yields a byte sequence identical to the original, with the
recorded size equal to the file's byte length. -/
theorem profile_save_load_roundtrip (fs : FileSystem) (p : List Nat)
    (path : String) :
    loadProfile (saveProfile fs p path) path = some (p, p.length) := by
  simp [loadProfile, saveProfile]

/-- C2 counterexample: a readable but empty (zero-byte) profile file is not
rejected before `pv_eagle_init` — the recognition body of
`eagle_demo_file.c` hands the empty profile straight to the constructor
(the `num_bytes != speaker_profile_size` check is `0 != 0` and passes). -/
theorem profile_empty_not_rejected :
    Ev.eagleInit 1 [[]] ∈
      recogBody 16000 512 (some []) true (fun _ => some 0) [] := by
  simp [recogBody, recogFiles]

/-- C2 amended: an unreadable profile file (`fopen` failure) makes the
recognition mode exit with an error before `pv_eagle_init` is ever called;
a readable file — including an empty one — is never rejected at load: its
exact byte content is passed to `pv_eagle_init` as the single profile. -/
theorem profile_load_checked (rate fl : Nat) (initOk : Bool)
    (proc : List Int → Option ℚ) (files : List WavInfo) :
    (recogBody rate fl none initOk proc files = [Ev.exitFail]) ∧
    (∀ n ps, Ev.eagleInit n ps ∉ recogBody rate fl none initOk proc files) ∧
    (∀ bytes, Ev.eagleInit 1 [bytes] ∈
      recogBody rate fl (some bytes) initOk proc files) := by
  refine ⟨rfl, ?_, ?_⟩
  · intro n ps h
    simp [recogBody] at h
  · intro bytes
    cases initOk with
    | false => simp [recogBody]
    | true => simp [recogBody]

theorem profile_load_checked_witness :
    Ev.eagleInit 1 [[0, 1, 2]] ∈
      recogBody 16000 512 (some [0, 1, 2]) true (fun _ => some 0) [] :=
  (profile_load_checked 16000 512 true (fun _ => some 0) []).2.2 [0, 1, 2]

theorem micCliLoop_no_show (opts : List MicOpt) :
    ∀ a : MicArgs, MicOpt.showDevices ∉ opts →
      micCliLoop opts a = micValidate (opts.foldl micApplyOpt a) := by
  induction opts with
  | nil =>
    intro a _
    rfl
  | cons o rest ih =>
    intro a hns
    have hns' : MicOpt.showDevices ∉ rest :=
      fun h => hns (List.mem_cons_of_mem _ h)
    cases o with
    | showDevices => exact absurd (List.mem_cons_self _ _) hns
    | accessKey v => exact ih (micApplyOpt a (MicOpt.accessKey v)) hns'
    | libraryPath v => exact ih (micApplyOpt a (MicOpt.libraryPath v)) hns'
    | modelPath v => exact ih (micApplyOpt a (MicOpt.modelPath v)) hns'
    | enrollPath v => exact ih (micApplyOpt a (MicOpt.enrollPath v)) hns'
    | testPath v => exact ih (micApplyOpt a (MicOpt.testPath v)) hns'
    | deviceIndex v => exact ih (micApplyOpt a (MicOpt.deviceIndex v)) hns'

theorem micValidate_usage (a : MicArgs)
    (h : (a.enrollPath.isSome = true ∧ a.testPath.isSome = true) ∨
         (a.enrollPath.isNone = true ∧ a.testPath.isNone = true) ∨
         a.accessKey.isNone = true ∨ a.modelPath.isNone = true ∨
         a.libraryPath.isNone = true) :
    micValidate a = [Ev.usageError] := by
  simp only [micValidate]
  by_cases h1 : a.libraryPath.isNone ∨ a.accessKey.isNone ∨ a.modelPath.isNone
  · rw [if_pos h1]
  · rw [if_neg h1]
    by_cases h2 : a.testPath.isSome ∧ a.enrollPath.isSome
    · rw [if_pos h2]
    · rw [if_neg h2]
      by_cases h3 : a.testPath.isNone ∧ a.enrollPath.isNone
      · rw [if_pos h3]
      · exfalso
        rcases h with ⟨he, ht⟩ | ⟨he, ht⟩ | hk | hm | hl
        · exact h2 ⟨ht, he⟩
        · exact h3 ⟨ht, he⟩
        · exact h1 (Or.inr (Or.inl hk))
        · exact h1 (Or.inr (Or.inr hm))
        · exact h1 (Or.inl hl)

/-- C8 counterexample: in the mic demo `-s` returns 0 from inside the
`getopt_long` loop (eagle_demo_mic.c:608-610), before the mode checks: a
command line with `-s` and neither mode, and one with `-s` and both modes,
both terminate without any usage error (and without loading a backend). -/
theorem cli_show_devices_bypasses_checks :
    (micCliRun [MicOpt.showDevices] = [Ev.exitOk]) ∧
    Ev.usageError ∉ micCliRun [MicOpt.showDevices] ∧
    (micCliRun
        [MicOpt.showDevices, MicOpt.enrollPath "e", MicOpt.testPath "t"] =
      [Ev.exitOk]) ∧
    Ev.usageError ∉
      micCliRun [MicOpt.showDevices, MicOpt.enrollPath "e",
        MicOpt.testPath "t"] := by
  decide

/-- C8 amended: in the file demo, and in the mic demo for every command
line that does not use `-s`, the enroll (-e) and test (-t) modes are
mutually exclusive — supplying both, or neither, terminates with a usage
error before any backend is loaded — and a missing access key, model path
or library path likewise terminates with a usage error.  A mic-demo command
line containing `-s` instead lists the audio devices and returns 0 from
inside the option loop, before any of these checks. -/
theorem cli_modes_validated (a : CliArgs) (opts : List MicOpt)
    (hfile : (a.enrollPath.isSome = true ∧ a.testPath.isSome = true) ∨
         (a.enrollPath.isNone = true ∧ a.testPath.isNone = true) ∨
         a.accessKey.isNone = true ∨ a.modelPath.isNone = true ∨
         a.libraryPath.isNone = true)
    (hns : MicOpt.showDevices ∉ opts)
    (hmic : ((micFinalArgs opts).enrollPath.isSome = true ∧
             (micFinalArgs opts).testPath.isSome = true) ∨
            ((micFinalArgs opts).enrollPath.isNone = true ∧
             (micFinalArgs opts).testPath.isNone = true) ∨
            (micFinalArgs opts).accessKey.isNone = true ∨
            (micFinalArgs opts).modelPath.isNone = true ∨
            (micFinalArgs opts).libraryPath.isNone = true) :
    (cliValidate a = [Ev.usageError] ∧
      ∀ p, Ev.openBackend p ∉ cliValidate a) ∧
    (micCliRun opts = [Ev.usageError] ∧
      ∀ p, Ev.openBackend p ∉ micCliRun opts) := by
  have hres : cliValidate a = [Ev.usageError] := by
    simp only [cliValidate]
    by_cases h1 : a.libraryPath.isNone ∨ a.accessKey.isNone ∨ a.modelPath.isNone
    · rw [if_pos h1]
    · rw [if_neg h1]
      by_cases h2 : a.testPath.isSome ∧ a.enrollPath.isSome
      · rw [if_pos h2]
      · rw [if_neg h2]
        by_cases h3 : a.testPath.isNone ∧ a.enrollPath.isNone
        · rw [if_pos h3]
        · exfalso
          rcases hfile with ⟨he, ht⟩ | ⟨he, ht⟩ | hk | hm | hl
          · exact h2 ⟨ht, he⟩
          · exact h3 ⟨ht, he⟩
          · exact h1 (Or.inr (Or.inl hk))
          · exact h1 (Or.inr (Or.inr hm))
          · exact h1 (Or.inl hl)
  have hmres : micCliRun opts = [Ev.usageError] := by
    have heq := micCliLoop_no_show opts ⟨none, none, none, none, none⟩ hns
    simp only [micCliRun]
    rw [heq]
    exact micValidate_usage _ hmic
  refine ⟨⟨hres, fun p hp => ?_⟩, ⟨hmres, fun p hp => ?_⟩⟩
  · rw [hres] at hp
    simp at hp
  · rw [hmres] at hp
    simp at hp

theorem cli_modes_validated_witness :
    cliValidate ⟨some "key", some "lib.so", some "model.pv",
        some "out.prof", some "in.prof", 1⟩ = [Ev.usageError] ∧
      micCliRun [MicOpt.accessKey "key"] = [Ev.usageError] := by
  have h := cli_modes_validated
    ⟨some "key", some "lib.so", some "model.pv",
      some "out.prof", some "in.prof", 1⟩
    [MicOpt.accessKey "key"]
    (Or.inl ⟨rfl, rfl⟩) (by decide) (Or.inr (Or.inl ⟨rfl, rfl⟩))
  exact ⟨h.1.1, h.2.1⟩

/-- C3 counterexample: a backend that exposes the five symbols resolved in
`picovoice_main` plus `pv_status_to_string` but lacks
`pv_eagle_profiler_init` (a required entry point).  The enrollment run
fails — yet an engine call has already been performed: `pv_eagle_version`
runs before the missing symbol is discovered, so the load does not fail as
a whole before any engine operation runs. -/
theorem binding_not_globally_atomic :
    (Ev.engineCall Sym.pv_eagle_version ∈
      fileEnrollmentRun (fileMainSymbols ++ [Sym.pv_status_to_string])
        16000 true [] [] true true "out") ∧
    (Ev.exitFail ∈
      fileEnrollmentRun (fileMainSymbols ++ [Sym.pv_status_to_string])
        16000 true [] [] true true "out") ∧
    Sym.pv_eagle_profiler_init ∉
      (fileMainSymbols ++ [Sym.pv_status_to_string]) := by
  decide

/-- C3 amended: symbol resolution is atomic per phase (the
`picovoice_main` batch and each session function's batch), not globally.
In each of the four demo modes, if a required entry point of that mode is
missing from the backend, the run exits with a failure, no recognizer
construction, enroll, process, export or profile file write ever happens,
and every engine call that did happen is one of `picovoice_main`'s
inter-phase calls through a pointer that was actually resolved —
`pv_eagle_version` in the file demo, `pv_eagle_version` and
`pv_eagle_frame_length` in the mic demo — calls that may therefore precede
the discovery of a missing session-level symbol. -/
theorem binding_failure_scoped (avail : List Sym) (s : Sym) (hmiss : s ∉ avail)
    (rate fl : Nat) (piOk : Bool) (files : List (WavInfo × EnrollOutcome))
    (bytes : List Nat) (eOk oOk : Bool) (path : String)
    (pf : Option (List Nat)) (initOk : Bool) (proc : List Int → Option ℚ)
    (rfiles : List WavInfo) (mpiOk : Bool) (intr : Nat → Bool)
    (res : Nat → Option ℚ) (mpcm : Nat → List Int) (fuel : Nat)
    (mbytes : List Nat) (mpath : String) (meOk moOk : Bool)
    (mpf : Option (List Nat)) (minitOk : Bool) (rintr : Nat → Bool)
    (rpcm : Nat → List Int) (rproc : List Int → Option ℚ) (rfuel : Nat) :
    (s ∈ fileMainSymbols ++ fileEnrollSymbols →
      failsCleanly (fileEnrollmentRun avail rate piOk files bytes eOk oOk path)
        [.pv_eagle_version] avail) ∧
    (s ∈ fileMainSymbols ++ fileTestSymbols →
      failsCleanly (fileRecognitionRun avail rate fl pf initOk proc rfiles)
        [.pv_eagle_version] avail) ∧
    (s ∈ micMainSymbols ++ micEnrollSymbols →
      failsCleanly
        (micEnrollmentRun avail mpiOk intr res mpcm fuel mbytes mpath meOk moOk)
        [.pv_eagle_version, .pv_eagle_frame_length] avail) ∧
    (s ∈ micMainSymbols ++ micTestSymbols →
      failsCleanly (micRecognitionRun avail mpf minitOk rintr rpcm rproc rfuel)
        [.pv_eagle_version, .pv_eagle_frame_length] avail) := by
  refine ⟨fun hreq => ?_, fun hreq => ?_, fun hreq => ?_, fun hreq => ?_⟩
  · rw [fileEnrollmentRun_eq]
    exact sessionRun_missing avail fileMainSymbols fileEnrollSymbols _ _ s
      hreq hmiss (by decide)
  · rw [fileRecognitionRun_eq]
    exact sessionRun_missing avail fileMainSymbols fileTestSymbols _ _ s
      hreq hmiss (by decide)
  · exact sessionRun_missing avail micMainSymbols micEnrollSymbols _ _ s
      hreq hmiss (by decide)
  · exact sessionRun_missing avail micMainSymbols micTestSymbols _ _ s
      hreq hmiss (by decide)

theorem binding_failure_scoped_witness :
    Ev.exitFail ∈ fileEnrollmentRun (fileMainSymbols ++ [Sym.pv_status_to_string])
      16000 true [] [] true true "out" :=
  ((binding_failure_scoped (fileMainSymbols ++ [Sym.pv_status_to_string])
      Sym.pv_eagle_profiler_init (by decide) 16000 512 true [] [] true true
      "out" (some []) true (fun _ => some 0) [] true (fun _ => true)
      (fun _ => none) (fun _ => []) 0 [] "m" true true (some []) true
      (fun _ => true) (fun _ => []) (fun _ => some 0) 0).1 (by decide)).1

/-- C5: profile export (`pv_eagle_profiler_export_size` /
`pv_eagle_profiler_export`) and the profile file write happen only when
enrollment ended with percentage at least 100: in the file demo the final
`enroll_percentage` of the audio loop must be ≥ 100, and in the mic demo
the loop must have exited uninterrupted with percentage ≥ 100; otherwise
the run terminates without exporting and no profile file is written. -/
theorem export_gated_by_completion (avail : List Sym) (rate : Nat)
    (piOk : Bool) (files : List (WavInfo × EnrollOutcome)) (bytes : List Nat)
    (eOk oOk : Bool) (path : String) (intr : Nat → Bool) (res : Nat → Option ℚ)
    (mpcm : Nat → List Int) (fuel : Nat) (mbytes : List Nat) (mpath : String)
    (meOk moOk : Bool) :
    (Ev.exportCall ∈ fileEnrollmentRun avail rate piOk files bytes eOk oOk path →
       ∃ pct : ℚ, (enrollFiles rate files 0).2 = some pct ∧ 100 ≤ pct) ∧
    (∀ p b, Ev.fileWrite p b ∈
        fileEnrollmentRun avail rate piOk files bytes eOk oOk path →
       p = path ∧ b = bytes ∧
         ∃ pct : ℚ, (enrollFiles rate files 0).2 = some pct ∧ 100 ≤ pct) ∧
    (Ev.exportCall ∈ micEnrollmentBody intr res mpcm fuel mbytes mpath meOk moOk →
       ∃ pct : ℚ, (micEnrollLoop intr res mpcm fuel 0 0).2 = some (pct, false) ∧
         100 ≤ pct) ∧
    (∀ p b, Ev.fileWrite p b ∈
        micEnrollmentBody intr res mpcm fuel mbytes mpath meOk moOk →
       ∃ pct : ℚ, (micEnrollLoop intr res mpcm fuel 0 0).2 = some (pct, false) ∧
         100 ≤ pct) := by
  refine ⟨?_, ?_,
    fun h => micEnrollmentBody_exportCall intr res mpcm fuel mbytes mpath meOk moOk h,
    fun p b h => micEnrollmentBody_fileWrite intr res mpcm fuel mbytes mpath meOk moOk p b h⟩
  · intro h
    rcases fileEnrollmentRun_split avail rate piOk files bytes eOk oOk path _ h
      with h1 | h1 | h1
    · simp [isSymEv] at h1
    · cases h1
    · exact profilerBody_exportCall rate piOk files bytes eOk oOk path h1
  · intro p b h
    rcases fileEnrollmentRun_split avail rate piOk files bytes eOk oOk path _ h
      with h1 | h1 | h1
    · simp [isSymEv] at h1
    · cases h1
    · rcases profilerBody_fileWrite rate piOk files bytes eOk oOk path p b h1
        with ⟨hex, hp, hb⟩
      exact ⟨hp, hb, hex⟩

theorem export_gated_by_completion_witness :
    ∃ pct : ℚ,
      (enrollFiles 16000
        [(⟨16000, 16, 1, [0]⟩, EnrollOutcome.ok Feedback.audioOk 100)] 0).2 =
          some pct ∧ 100 ≤ pct :=
  (export_gated_by_completion allSyms 16000 true
      [(⟨16000, 16, 1, [0]⟩, EnrollOutcome.ok Feedback.audioOk 100)] [1] true true
      "out" (fun _ => true) (fun _ => none) (fun _ => []) 0 [] "m" true true).1
    (by decide)

/-- C6: audio format mismatches (sample rate, bit depth, channel count) are
rejected before any audio of that input reaches the engine: every pcm
buffer passed to `pv_eagle_profiler_enroll` in the file demo's enrollment
mode comes from a WAV input that passed all three header checks, and every
frame passed to `pv_eagle_process` in its test mode comes from a WAV input
that passed all three header checks. -/
theorem audio_format_validated (avail : List Sym) (rate fl : Nat)
    (piOk : Bool) (files : List (WavInfo × EnrollOutcome)) (bytes : List Nat)
    (eOk oOk : Bool) (path : String) (pf : Option (List Nat)) (initOk : Bool)
    (proc : List Int → Option ℚ) (rfiles : List WavInfo) :
    (∀ pcm, Ev.enrollCall pcm ∈
        fileEnrollmentRun avail rate piOk files bytes eOk oOk path →
      ∃ w r, (w, r) ∈ files ∧ pcm = w.samples ∧ w.sampleRate = rate ∧
        w.bitsPerSample = 16 ∧ w.channels = 1) ∧
    (∀ f, Ev.processCall f ∈
        fileRecognitionRun avail rate fl pf initOk proc rfiles →
      ∃ w, w ∈ rfiles ∧ f ∈ chunkFrames fl w.samples ∧ w.sampleRate = rate ∧
        w.bitsPerSample = 16 ∧ w.channels = 1) := by
  constructor
  · intro pcm h
    rcases fileEnrollmentRun_split avail rate piOk files bytes eOk oOk path _ h
      with h1 | h1 | h1
    · simp [isSymEv] at h1
    · cases h1
    · exact profilerBody_enrollCall rate piOk files bytes eOk oOk path pcm h1
  · intro f h
    rcases fileRecognitionRun_split avail rate fl pf initOk proc rfiles _ h
      with h1 | h1 | h1
    · simp [isSymEv] at h1
    · cases h1
    · exact recogBody_processCall rate fl pf initOk proc rfiles f h1

theorem audio_format_validated_witness :
    ∃ w r, (w, r) ∈
        [((⟨16000, 16, 1, [5]⟩ : WavInfo), EnrollOutcome.ok Feedback.audioOk 100)] ∧
      ([5] : List Int) = w.samples ∧ w.sampleRate = 16000 ∧
      w.bitsPerSample = 16 ∧ w.channels = 1 :=
  (audio_format_validated allSyms 16000 512 true
      [(⟨16000, 16, 1, [5]⟩, EnrollOutcome.ok Feedback.audioOk 100)] [1] true true
      "out" (some [1]) true (fun _ => some 0) []).1 [5] (by decide)

/-- C4: a process() call with a buffer whose length differs from
frameLength() fails with InvalidArgument without invoking the backend
(spec-modelled session, the engine implementation being a prebuilt binary),
and the file demo itself never submits such a buffer: every frame reaching
`pv_eagle_process` in any recognition run has exactly frameLength()
samples. -/
theorem process_frame_length_contract (fl : Nat) (backend : List Int → ℚ)
    (frame : List Int) (h : frame.length ≠ fl) :
    sessionProcess fl backend frame =
      (Except.error PvStatus.invalidArgument, false) ∧
    (∀ avail rate pf initOk proc files f,
       Ev.processCall f ∈ fileRecognitionRun avail rate fl pf initOk proc files →
       f.length = fl) := by
  refine ⟨by simp [sessionProcess, h], ?_⟩
  intro avail rate pf initOk proc files f hf
  rcases fileRecognitionRun_split avail rate fl pf initOk proc files _ hf
    with h1 | h1 | h1
  · simp [isSymEv] at h1
  · cases h1
  · rcases recogBody_processCall rate fl pf initOk proc files f h1
      with ⟨w, _, hchunk, _⟩
    exact chunkFrames_mem_length fl w.samples f hchunk

theorem process_frame_length_contract_witness :
    sessionProcess 3 (fun _ => 0) ([0, 1] : List Int) =
      (Except.error PvStatus.invalidArgument, false) :=
  (process_frame_length_contract 3 (fun _ => 0) [0, 1] (by decide)).1

/-- Events that are a `pv_free_error_stack` call. -/
def isFreeEv : Ev → Bool
  | .freeStack => true
  | _ => false

/-- C7 counterexample: two failure sites violate the claim as stated.  The
mic demo's profile-export failure (eagle_demo_mic.c:381-385) reports the
status and exits without ever querying the diagnostic stack; and at the
sites that do query, a successfully obtained empty stack is never released
(`pv_free_error_stack` runs only under `message_stack_depth > 0`). -/
theorem error_reporting_not_universal :
    (micExportFailSite PvStatus.runtimeError =
      [Ev.origFailure PvStatus.runtimeError, Ev.exitFail]) ∧
    Ev.stackQuery ∉ micExportFailSite PvStatus.runtimeError ∧
    Ev.stackQuery ∈ handleError PvStatus.runtimeError
      (Except.ok ([] : List String)) ∧
    Ev.freeStack ∉ handleError PvStatus.runtimeError
      (Except.ok ([] : List String)) := by
  decide

/-- C7 amended: at every failure site the original failure is reported
first and never masked, and the process exits with a failure.  At every
site except the mic demo's profile-export failure the handler then queries
the diagnostic stack: if the query itself fails, the note carrying the
query's own status is emitted after the original message; a non-empty
stack obtained is printed in order and then released by exactly one
`pv_free_error_stack` call; an empty stack obtained is not released.  The
mic profile-export failure site prints the failure with its status and
exits without querying the stack at all. -/
theorem error_reporting_protocol (s : PvStatus)
    (q : Except PvStatus (List String)) :
    ((handleError s q).head? = some (Ev.origFailure s)) ∧
    (Ev.stackQuery ∈ handleError s q) ∧
    (∀ e, q = Except.error e → Ev.stackNote e ∈ handleError s q) ∧
    (∀ msgs, q = Except.ok msgs → msgs ≠ [] →
       handleError s q = Ev.origFailure s :: Ev.stackQuery ::
         ((msgs.enum.map fun pr => Ev.printMsg pr.1 pr.2) ++
           [Ev.freeStack, Ev.exitFail])) ∧
    (∀ msgs, q = Except.ok msgs →
       (handleError s q).countP isFreeEv = if msgs = [] then 0 else 1) ∧
    (Ev.exitFail ∈ handleError s q) ∧
    (micExportFailSite s = [Ev.origFailure s, Ev.exitFail]) ∧
    ((micExportFailSite s).head? = some (Ev.origFailure s)) ∧
    (Ev.stackQuery ∉ micExportFailSite s) ∧
    (Ev.exitFail ∈ micExportFailSite s) := by
  have hmap : ∀ msgs : List String,
      ((msgs.enum.map fun pr => Ev.printMsg pr.1 pr.2).countP isFreeEv) = 0 := by
    intro msgs
    rw [List.countP_eq_zero]
    intro e he
    rcases List.mem_map.1 he with ⟨pr, _, hpr⟩
    subst hpr
    intro hcon
    exact Bool.noConfusion hcon
  refine ⟨?_, ?_, ?_, ?_, ?_, ?_, rfl, rfl, ?_, ?_⟩
  · cases q with
    | error e => rfl
    | ok msgs => rfl
  · cases q with
    | error e => simp [handleError]
    | ok msgs => simp [handleError]
  · intro e he
    subst he
    simp [handleError]
  · intro msgs hq hne
    subst hq
    have hlen : msgs.length > 0 := List.length_pos.2 hne
    simp [handleError, hlen]
  · intro msgs hq
    subst hq
    by_cases hne : msgs = []
    · subst hne
      simp [handleError, isFreeEv]
    · have hlen : msgs.length > 0 := List.length_pos.2 hne
      simp only [handleError, if_pos hlen, if_neg hne]
      simp [List.countP_cons, List.countP_append, hmap msgs, isFreeEv]
  · cases q with
    | error e => simp [handleError]
    | ok msgs =>
      by_cases hlen : msgs.length > 0
      · simp [handleError, hlen]
      · simp [handleError, hlen]
  · simp [micExportFailSite]
  · simp [micExportFailSite]

theorem error_reporting_protocol_witness :
    Ev.stackNote PvStatus.ioError ∈
      handleError PvStatus.runtimeError (Except.error PvStatus.ioError) :=
  (error_reporting_protocol PvStatus.runtimeError
    (Except.error PvStatus.ioError)).2.2.1 PvStatus.ioError rfl

/-- C9: the recognizer is always constructed with `num_speakers` hard-coded
to 1 and a single profile — no code path passes more than one profile to
`pv_eagle_init` — and each successful process() call produces exactly one
score line (score count equals process-call count on a successful run, and
never exceeds it). -/
theorem single_profile_single_score (avail : List Sym) (rate fl : Nat)
    (pf : Option (List Nat)) (initOk : Bool) (proc : List Int → Option ℚ)
    (files : List WavInfo) :
    (∀ n ps, Ev.eagleInit n ps ∈
        fileRecognitionRun avail rate fl pf initOk proc files →
      n = 1 ∧ ps.length = 1) ∧
    (∀ fs : List (List Int), (processChunks proc fs).2 = true →
       ((processChunks proc fs).1.countP isScoreEv) =
         ((processChunks proc fs).1.countP isProcessCallEv)) ∧
    (∀ fs : List (List Int),
       ((processChunks proc fs).1.countP isScoreEv) ≤
         ((processChunks proc fs).1.countP isProcessCallEv)) := by
  refine ⟨?_, fun fs h => processChunks_counts proc fs h,
    fun fs => processChunks_scores_le proc fs⟩
  intro n ps h
  rcases fileRecognitionRun_split avail rate fl pf initOk proc files _ h
    with h1 | h1 | h1
  · simp [isSymEv] at h1
  · cases h1
  · rcases recogBody_eagleInit rate fl pf initOk proc files n ps h1
      with ⟨hn, bytes, _, hps⟩
    subst hps
    exact ⟨hn, rfl⟩

theorem single_profile_single_score_witness :
    1 = 1 ∧ ([[7]] : List (List Nat)).length = 1 :=
  (single_profile_single_score allSyms 16000 512 (some [7]) true
    (fun _ => some 0) []).1 1 [[7]] (by decide)

/-- C10: in file-based recognition a trailing partial chunk of fewer than
frameLength() samples is silently discarded: with a well-formed input whose
every frame the backend accepts, the file is processed without error, every
submitted frame has exactly fl samples, the number of submitted frames is
the sample count divided by fl, and the concatenation of the submitted
frames covers exactly the first fl * (count / fl) samples — the remainder
is never submitted to `pv_eagle_process` and raises no failure. -/
theorem trailing_partial_chunk_discarded (rate fl : Nat) (hfl : 0 < fl)
    (w : WavInfo) (proc : List Int → Option ℚ)
    (hsr : w.sampleRate = rate) (hbits : w.bitsPerSample = 16)
    (hch : w.channels = 1) (hproc : ∀ f, proc f ≠ none) :
    (recogOneFile rate fl proc w).2 = true ∧
    Ev.exitFail ∉ (recogOneFile rate fl proc w).1 ∧
    Ev.processFail ∉ (recogOneFile rate fl proc w).1 ∧
    (∀ f, Ev.processCall f ∈ (recogOneFile rate fl proc w).1 → f.length = fl) ∧
    ((chunkFrames fl w.samples).length = w.samples.length / fl) ∧
    ((chunkFrames fl w.samples).flatten =
      w.samples.take (fl * (w.samples.length / fl))) := by
  have hfmt : ¬(w.sampleRate ≠ rate ∨ w.bitsPerSample ≠ 16 ∨ w.channels ≠ 1) := by
    intro hcon
    rcases hcon with h | h | h
    · exact h hsr
    · exact h hbits
    · exact h hch
  have hone : recogOneFile rate fl proc w =
      processChunks proc (chunkFrames fl w.samples) := by
    simp [recogOneFile, hfmt]
  refine ⟨?_, ?_, ?_, ?_, chunkFrames_length fl hfl w.samples,
    chunkFrames_join fl w.samples⟩
  · rw [hone]
    exact processChunks_flag proc _ hproc
  · rw [hone]
    intro hmem
    rcases processChunks_success_events proc _ hproc _ hmem with h1 | h1 <;>
      simp [isProcessCallEv, isScoreEv] at h1
  · rw [hone]
    intro hmem
    rcases processChunks_success_events proc _ hproc _ hmem with h1 | h1 <;>
      simp [isProcessCallEv, isScoreEv] at h1
  · rw [hone]
    intro f hmem
    exact chunkFrames_mem_length fl w.samples f
      (processChunks_processCall proc _ f hmem)

theorem trailing_partial_chunk_discarded_witness :
    (chunkFrames 2 ([1, 2, 3] : List Int)).length =
      ([1, 2, 3] : List Int).length / 2 :=
  (trailing_partial_chunk_discarded 16000 2 (by decide)
    ⟨16000, 16, 1, [1, 2, 3]⟩ (fun _ => some 0) rfl rfl rfl
    (fun _ h => Option.noConfusion h)).2.2.2.2.1

end EagleDemo
